import Mathlib

/-!
Shallow embedding of the CC-NIE-Toolbox log-parsing scripts
(src/generic/LogParser/cbr.py and src/generic/LogParser/ldm6_par.py)
together with proofs about the claims of the specification.

Log lines are modelled as lists of characters (one Python string line,
newline included or not — the trailing newline is whitespace and is
dropped by the whitespace split).  Python runtime exceptions
(IndexError from sequence indexing, ValueError from int/strptime/date
parsing, KeyError from dict lookup) are modelled with an Except monad;
a returned error value corresponds to an unhandled Python exception
propagating out of the function.  Python floats are modelled as
rationals, Python ints as Int, product-identifier sets as Finset, and
the completed-products dict as a function into Option.

The free-form arrival-timestamp parser (the external dateutil library
composed with astimezone/replace, used on column 0 of each line) is
not code of this repository; every theorem is stated for an arbitrary
such parser D, modelled as a partial function from the column-0 token
to a UTC instant in seconds (none models a raised exception).
-/

/-- Python runtime exceptions that the scripts can raise. -/
inductive PyErr where
  | indexError
  | valueError
  | keyError
deriving DecidableEq, Repr

/-- Auxiliary worker for the whitespace split: walks the line keeping
the (reversed) current token in the accumulator. -/
def splitWsAux : List Char → List Char → List (List Char)
  | [], acc => if acc = [] then [] else [acc.reverse]
  | c :: cs, acc =>
    if c.isWhitespace then
      (if acc = [] then splitWsAux cs [] else acc.reverse :: splitWsAux cs [])
    else splitWsAux cs (c :: acc)

/-- The Python expression line.split(): split on runs of whitespace,
dropping empty tokens (so leading/trailing whitespace is ignored). -/
def cols (line : List Char) : List (List Char) := splitWsAux line []

/-- Suffix of the list after the first occurrence of pat, if pat occurs
as a contiguous sublist. -/
def dropAfterSub : List Char → List Char → Option (List Char)
  | [], pat => if pat = [] then some [] else none
  | c :: cs, pat =>
    if pat.isPrefixOf (c :: cs) then some ((c :: cs).drop pat.length)
    else dropAfterSub cs pat

/-- The Python test re.search of a regex of shape .*A.*B on a line:
true exactly when an occurrence of the substring A is followed (to its
right, non-overlapping) by an occurrence of the substring B.  Searching
after the first occurrence of A is equivalent to searching after any
occurrence. -/
def containsInOrder (line a b : List Char) : Bool :=
  match dropAfterSub line a with
  | some rest => (dropAfterSub rest b).isSome
  | none => false

/-- Marker test of parser Variant A, cbr.py line 55:
re.search of .*mldm.*Received on the line. -/
def matchMldm (line : List Char) : Bool :=
  containsInOrder line ("mldm".data) ("Received".data)

/-- Marker test of parser Variant B, cbr.py line 86:
re.search of .*down7.*Inserted on the line. -/
def matchDown (line : List Char) : Bool :=
  containsInOrder line ("down7".data) ("Inserted".data)

/-- Value of a list of decimal digit characters. -/
def digitsToNat (cs : List Char) : ℕ :=
  cs.foldl (fun acc c => acc * 10 + (c.toNat - ('0').toNat)) 0

/-- The Python built-in int() applied to a token coming from a
whitespace split (hence free of surrounding whitespace, so the
stripping that int() performs is a no-op): an optional single sign
followed by one or more decimal digits; none models a raised
ValueError. -/
def pyInt (cs : List Char) : Option ℤ :=
  match cs with
  | [] => none
  | c :: rest =>
    if c = '-' then
      (if rest ≠ [] ∧ rest.all Char.isDigit then some (-(digitsToNat rest : ℤ)) else none)
    else if c = '+' then
      (if rest ≠ [] ∧ rest.all Char.isDigit then some ((digitsToNat rest : ℤ)) else none)
    else if cs.all Char.isDigit then some ((digitsToNat cs : ℤ)) else none

/-- The Python str.isdigit method on a byte string: nonempty and all
characters are decimal digits. -/
def pyIsDigit (cs : List Char) : Bool :=
  !cs.isEmpty && cs.all Char.isDigit

/-- Gregorian leap-year test. -/
def isLeap (y : ℤ) : Bool :=
  (y % 4 == 0 && y % 100 != 0) || y % 400 == 0

/-- Number of days of a month (the datetime library validates the
day-of-month field against this). -/
def daysInMonth (y mo : ℤ) : ℤ :=
  if mo = 2 then (if isLeap y then 29 else 28)
  else if mo = 4 ∨ mo = 6 ∨ mo = 9 ∨ mo = 11 then 30
  else 31

/-- Day count of a proleptic Gregorian civil date, with day 0 at
0000-03-01 (standard era-based algorithm; exact for year at least 1,
which the datetime library guarantees).  Serves as the linear timeline
on which timestamp differences are taken. -/
def daysFromCivil (y mo d : ℤ) : ℤ :=
  let y' := if mo ≤ 2 then y - 1 else y
  let era := y' / 400
  let yoe := y' - era * 400
  let mp := if 2 < mo then mo - 3 else mo + 9
  let doy := (153 * mp + 2) / 5 + d - 1
  let doe := yoe * 365 + yoe / 4 - yoe / 100 + doy
  era * 146097 + doe

/-- Instant (in seconds on the daysFromCivil timeline) of a civil
date-time with a decimal fraction given by a digit string (the
datetime %f field is left-aligned: k digits denote digits/10^k of a
second). -/
def civilTS (y mo d h mi sec : ℤ) (frac : List Char) : ℚ :=
  ((daysFromCivil y mo d * 86400 + h * 3600 + mi * 60 + sec : ℤ) : ℚ)
    + (digitsToNat frac : ℚ) / ((10 : ℚ) ^ frac.length)

/-- The call datetime.strptime(token, "%Y%m%d%H%M%S.%f") as used by the
scripts: fourteen decimal digits (four-digit year, then two digits for
month, day, hour, minute, second), a literal dot, and one to six
fractional digits, with the usual datetime range validation; none
models a raised ValueError.  (CPython would additionally tolerate some
shorter digit runs for the middle fields via regex backtracking; no
call site of this repository relies on that.) -/
def strpYmdHMSf (csl : List Char) : Option ℚ :=
  match csl.drop 14 with
  | '.' :: frac =>
    let intPart := csl.take 14
    if intPart.length = 14 ∧ intPart.all Char.isDigit ∧ frac ≠ [] ∧
        frac.length ≤ 6 ∧ frac.all Char.isDigit then
      let y : ℤ := (digitsToNat (intPart.take 4) : ℤ)
      let mo : ℤ := (digitsToNat ((intPart.drop 4).take 2) : ℤ)
      let d : ℤ := (digitsToNat ((intPart.drop 6).take 2) : ℤ)
      let h : ℤ := (digitsToNat ((intPart.drop 8).take 2) : ℤ)
      let mi : ℤ := (digitsToNat ((intPart.drop 10).take 2) : ℤ)
      let sec : ℤ := (digitsToNat ((intPart.drop 12).take 2) : ℤ)
      if 1 ≤ y ∧ 1 ≤ mo ∧ mo ≤ 12 ∧ 1 ≤ d ∧ d ≤ daysInMonth y mo ∧
          h ≤ 23 ∧ mi ≤ 59 ∧ sec ≤ 59 then
        some (civilTS y mo d h mi sec frac)
      else none
    else none
  | _ => none

/-- Python sequence indexing seq i for a nonnegative index: IndexError
when the index is out of range. -/
def pyIndex (l : List (List Char)) (i : ℕ) : Except PyErr (List Char) :=
  match l[i]? with
  | some a => .ok a
  | none => .error .indexError

/-- Python sequence indexing seq with index negative one (the last
element): IndexError on an empty sequence. -/
def pyLast (l : List (List Char)) : Except PyErr (List Char) :=
  match l.getLast? with
  | some a => .ok a
  | none => .error .indexError

/-- int(token) in the Except monad: ValueError when the token is not an
integer literal. -/
def toInt (csl : List Char) : Except PyErr ℤ :=
  match pyInt csl with
  | some n => .ok n
  | none => .error .valueError

/-- The composite parse(token).astimezone(pytz.utc).replace(tzinfo=None)
for an arbitrary model D of the external dateutil parser: ValueError
when D signals failure (a raise from parse or from astimezone). -/
def toArrival (D : List Char → Option ℚ) (csl : List Char) : Except PyErr ℚ :=
  match D csl with
  | some q => .ok q
  | none => .error .valueError

/-- datetime.strptime(token, "%Y%m%d%H%M%S.%f") in the Except monad. -/
def toInsert (csl : List Char) : Except PyErr ℚ :=
  match strpYmdHMSf csl with
  | some q => .ok q
  | none => .error .valueError

namespace cbr

/-- cbr.py lines 40-69, parseMLDM: on a line matching .*mldm.*Received,
split on whitespace and read the product index from the last column,
the size from column 6, the arrival time from column 0 (via the
external date parser D), and the insertion time from column 7 in the
fixed %Y%m%d%H%M%S.%f format; the elapsed receive time is arrival
minus insertion.  A non-matching line yields the (-1, -1, -1)
sentinel. -/
def parseMLDM (D : List Char → Option ℚ) (line : List Char) :
    Except PyErr (ℤ × ℤ × ℚ) :=
  if matchMldm line = true then do
    let sl := cols line
    let lastTok ← pyLast sl
    let prodindex ← toInt lastTok
    let sizeTok ← pyIndex sl 6
    let size ← toInt sizeTok
    let arrivalTok ← pyIndex sl 0
    let arrival_time ← toArrival D arrivalTok
    let insertTok ← pyIndex sl 7
    let insert_time ← toInsert insertTok
    return (prodindex, size, arrival_time - insert_time)
  else return (-1, -1, -1)

/-- cbr.py lines 72-99, parseBackstop: on a line matching
.*down7.*Inserted, split on whitespace and read the product index from
the last column, the size from column 5, the arrival time from column
0 (via D), and the insertion time from column 6 in the fixed
%Y%m%d%H%M%S.%f format.  A non-matching line yields the (-1, -1, -1)
sentinel. -/
def parseBackstop (D : List Char → Option ℚ) (line : List Char) :
    Except PyErr (ℤ × ℤ × ℚ) :=
  if matchDown line = true then do
    let sl := cols line
    let lastTok ← pyLast sl
    let prodindex ← toInt lastTok
    let sizeTok ← pyIndex sl 5
    let size ← toInt sizeTok
    let arrivalTok ← pyIndex sl 0
    let arrival_time ← toArrival D arrivalTok
    let insertTok ← pyIndex sl 6
    let insert_time ← toInsert insertTok
    return (prodindex, size, arrival_time - insert_time)
  else return (-1, -1, -1)

end cbr

namespace ldm6

/-- ldm6_par.py lines 38-66, parseMLDM: split the line on whitespace;
when column 3 is a nonempty all-digits token, read the product index
from the last column, the size from column 3, the arrival time from
column 0 (via D), and the insertion time from column 4 in the fixed
%Y%m%d%H%M%S.%f format; otherwise return the (-1, -1, -1) sentinel.
The column-3 access itself raises IndexError on lines with fewer than
four columns. -/
def parseMLDM (D : List Char → Option ℚ) (line : List Char) :
    Except PyErr (ℤ × ℤ × ℚ) := do
  let sl := cols line
  let c3 ← pyIndex sl 3
  if pyIsDigit c3 = true then do
    let lastTok ← pyLast sl
    let prodindex ← toInt lastTok
    let size ← toInt c3
    let arrivalTok ← pyIndex sl 0
    let arrival_time ← toArrival D arrivalTok
    let insertTok ← pyIndex sl 4
    let insert_time ← toInsert insertTok
    return (prodindex, size, arrival_time - insert_time)
  else return (-1, -1, -1)

end ldm6

/-- State threaded through extractLog: the complete_set of seen
product identifiers and the complete_dict from identifier to
(size, elapsed receive time); absent keys map to none. -/
def ExtractState : Type := Finset ℤ × (ℤ → Option (ℤ × ℚ))

/-- Body of the extractLog loop on a positive match (both scripts):
complete_set gains the identifier, and complete_dict gains the
(size, rxtime) pair only if the identifier is not yet a key
(the has_key guard). -/
def insertRecord (st : ExtractState) (rcd : ℤ × ℤ × ℚ) : ExtractState :=
  (st.1 ∪ {rcd.1},
   if (st.2 rcd.1).isSome then st.2
   else fun j => if j = rcd.1 then some (rcd.2.1, rcd.2.2) else st.2 j)

/-- The line-by-line loop shared by both extractLog functions, for a
per-line step that may raise (propagating the exception) and may
produce a record to insert. -/
def extractLoop (step : List Char → Except PyErr (Option (ℤ × ℤ × ℚ))) :
    List (List Char) → ExtractState → Except PyErr ExtractState
  | [], st => .ok st
  | l :: ls, st => do
    let r ← step l
    extractLoop step ls (match r with | some rcd => insertRecord st rcd | none => st)

namespace cbr

/-- Per-line work of cbr.py extractLog (lines 115-124): run parseMLDM
and parseBackstop on the line (both are evaluated; an exception in
either aborts), then keep the MLDM record when its identifier is
nonnegative, else the backstop record when its identifier is
nonnegative, else nothing. -/
def lineStep (D : List Char → Option ℚ) (line : List Char) :
    Except PyErr (Option (ℤ × ℤ × ℚ)) := do
  let m ← parseMLDM D line
  let b ← parseBackstop D line
  if m.1 ≥ 0 then return some m
  else if b.1 ≥ 0 then return some b
  else return none

/-- cbr.py lines 102-126, extractLog: fold lineStep over the lines of
the file starting from an empty set and dict, and return the sorted
list of seen identifiers together with the dict. -/
def extractLog (D : List Char → Option ℚ) (lines : List (List Char)) :
    Except PyErr (List ℤ × (ℤ → Option (ℤ × ℚ))) := do
  let st ← extractLoop (lineStep D) lines (∅, fun _ => none)
  return (st.1.sort (· ≤ ·), st.2)

/-- cbr.py lines 36-38: the round-trip-time constant in seconds. -/
def rtt : ℚ := 0.001

/-- cbr.py lines 129-151, calcCBR: look the product up in
complete_dict (KeyError when absent), form the ideal and half-full
delivery times from the fixed 40,000,000 bps circuit rate, and return
the pair (cbr, half_full_cbr) of percentages, or (-1, -1) when
ideal_time or the recorded elapsed time is zero (Python truthiness
guard). -/
def calcCBR (index : ℤ) (complete_dict : ℤ → Option (ℤ × ℚ)) :
    Except PyErr (ℚ × ℚ) :=
  match complete_dict index with
  | none => .error .keyError
  | some (sz, tm) =>
    let vc_rate : ℚ := 40000000
    let ideal_time : ℚ := (sz : ℚ) / vc_rate + 0.5 * rtt
    let half_full_time : ℚ := (sz : ℚ) / vc_rate + 0.5 * rtt + 60
    let true_time : ℚ := tm
    if ideal_time ≠ 0 ∧ true_time ≠ 0 then
      .ok ((ideal_time / true_time) * 100, (ideal_time / half_full_time) * 100)
    else
      .ok (-1, -1)

/-- cbr.py main, lines 171-176: the fourth CSV column, 1 when
cbr < half_full_cbr and 0 otherwise. -/
def isHalfFullFlag (c h : ℚ) : ℕ :=
  if c < h then 1 else 0

end cbr

namespace ldm6

/-- Per-line work of ldm6_par.py extractLog (lines 116-120): run
parseMLDM on the line and keep the record when its identifier is
nonnegative. -/
def lineStep (D : List Char → Option ℚ) (line : List Char) :
    Except PyErr (Option (ℤ × ℤ × ℚ)) := do
  let m ← parseMLDM D line
  if m.1 ≥ 0 then return some m else return none

/-- ldm6_par.py lines 103-122, extractLog: fold lineStep over the
lines and return the set of seen identifiers together with the
dict. -/
def extractLog (D : List Char → Option ℚ) (lines : List (List Char)) :
    Except PyErr (Finset ℤ × (ℤ → Option (ℤ × ℚ))) := do
  let st ← extractLoop (lineStep D) lines (∅, fun _ => none)
  return (st.1, st.2)

/-- ldm6_par.py lines 125-146, calcThroughput: intersect the aggregate
group with complete_set, sum sizes and elapsed times of the matched
products from complete_dict (a missing key raises KeyError), and
return (throughput, complete_size) where throughput is
(complete_size / complete_time) * 8 bits per second, or -1 when
complete_time is zero (Python truthiness guard). -/
def calcThroughput (tx_group complete_set : Finset ℤ)
    (complete_dict : ℤ → Option (ℤ × ℚ)) : Except PyErr (ℚ × ℤ) :=
  if _h : ∀ i ∈ tx_group ∩ complete_set, (complete_dict i).isSome then
    let complete_size : ℤ :=
      ∑ i ∈ tx_group ∩ complete_set, ((complete_dict i).getD (0, 0)).1
    let complete_time : ℚ :=
      ∑ i ∈ tx_group ∩ complete_set, ((complete_dict i).getD (0, 0)).2
    if complete_time ≠ 0 then
      .ok (((complete_size : ℚ) / complete_time) * 8, complete_size)
    else
      .ok (-1, complete_size)
  else .error .keyError

/-- Recursive worker of ldm6_par.py aggregate (lines 82-98): walk the
per-row sizes carrying the next row index, the running group and the
running sum; close the group whenever the running sum reaches the
threshold, and after the last row keep the running group only when it
is nonempty and its sum is nonzero (the Python truthiness test
group and sum_size). -/
def aggLoop : List ℤ → ℕ → ℤ → List ℕ → ℤ → List (List ℕ) × List ℤ
  | [], _, _, group, sum_size =>
    if group ≠ [] ∧ sum_size ≠ 0 then ([group], [sum_size]) else ([], [])
  | sz :: rest, i, thr, group, sum_size =>
    let group' := group ++ [i]
    let s' := sum_size + sz
    if s' ≥ thr then
      let res := aggLoop rest (i + 1) thr [] 0
      (group' :: res.1, s' :: res.2)
    else aggLoop rest (i + 1) thr group' s'

/-- ldm6_par.py lines 69-100, aggregate: group consecutive metadata
rows (identified by their 0-based file-order index) until the
accumulated size reaches aggregate_size; the sizes argument holds the
first-column value of each row already read as an integer (the csv
reading itself is an external input wrapper). -/
def aggregate (sizes : List ℤ) (aggregate_size : ℤ) : List (List ℕ) × List ℤ :=
  aggLoop sizes 0 aggregate_size [] 0

/-- Sum of the sizes of the rows of one aggregate group (the
accumulated size that the specification speaks about). -/
def groupSizeSum (sizes : List ℤ) (g : List ℕ) : ℤ :=
  (g.map (fun a => sizes.getD a 0)).sum

end ldm6

/-- The sequence of records a per-line step yields over a list of
lines, in file order (the records that the extract loop would insert,
when no line raises). -/
def stepRecords (step : List Char → Except PyErr (Option (ℤ × ℤ × ℚ)))
    (lines : List (List Char)) : List (ℤ × ℤ × ℚ) :=
  lines.filterMap (fun l => match step l with | .ok (some rcd) => some rcd | _ => none)

/-- Concrete insertion timestamp used by the evaluation theorems:
the instant written 00010101000000.5 in the %Y%m%d%H%M%S.%f format. -/
def wTs : ℚ := civilTS 1 1 1 0 0 0 ("5".data)

/-- Concrete model of the external dateutil arrival parser used by the
evaluation theorems: every token parses to the instant wTs. -/
def wD : List Char → Option ℚ := fun _ => some wTs

/-- A well-formed Variant A (mldm) log line with identifier 3 and
size 100. -/
def lineA : List Char := "T0 mldm Received x x x 100 00010101000000.5 3".data

/-- A second well-formed Variant A log line with the same identifier 3
but a different size 999. -/
def lineA2 : List Char := "T0 mldm Received x x x 999 00010101000000.5 3".data

/-- A well-formed Variant B (down7 backstop) log line with identifier 7
and size 500; its column 7 (the last column) is not a valid
%Y%m%d%H%M%S.%f timestamp. -/
def lineB : List Char := "T0 down7 Inserted x x 500 00010101000000.5 7".data

/-- A line containing both variants marker pairs: mldm before Received
and down7 before Inserted.  Variant B parses it successfully
(column 5 size, column 6 timestamp, last column identifier) while
Variant A raises ValueError on int() of column 6 (the timestamp). -/
def lineAB : List Char := "T0 mldm Received down7 Inserted 100 00010101000000.5 3".data

/-- The elapsed receive time of the concrete lines above under wD:
arrival wTs minus insertion wTs. -/
def wRx : ℚ := wTs - wTs

/-- Identifier list produced by the concrete cbr extractLog runs below
(the sorted singleton set of identifier 3). -/
def demoSorted : List ℤ := Finset.sort (· ≤ ·) ({3} : Finset ℤ)

/-- Completed-products dict produced by the concrete cbr extractLog
runs below: identifier 3 maps to size 100 and elapsed wRx. -/
def demoDict : ℤ → Option (ℤ × ℚ) :=
  fun j => if j = 3 then some (100, wRx) else none

/-- Dict with one product of size 4,000,000 bytes and elapsed time
1.0 s (the end-to-end CBR example of the specification). -/
def dictC8 : ℤ → Option (ℤ × ℚ) :=
  fun j => if j = 0 then some (4000000, 1) else none

/-- Dict with one product of size 4,000,000 bytes and elapsed time
0 s (the degenerate CBR case). -/
def dictZeroTime : ℤ → Option (ℤ × ℚ) :=
  fun j => if j = 0 then some (4000000, 0) else none

/-- Dict with one product of size 100 bytes and elapsed time 0 s (the
degenerate throughput case with a nonempty intersection). -/
def dictThru : ℤ → Option (ℤ × ℚ) :=
  fun j => if j = 0 then some (100, 0) else none

/-- Inversion of a successful bind in the Except monad. -/
theorem except_bind_ok {α β : Type} {e : Except PyErr α} {f : α → Except PyErr β} {b : β} :
    (e >>= f) = .ok b ↔ ∃ a, e = .ok a ∧ f a = .ok b := by
  cases e with
  | error ex => simp [Bind.bind, Except.bind]
  | ok a => simp [Bind.bind, Except.bind]

/-- A pure value in the Except monad is an ok result. -/
theorem except_pure_ok {α : Type} {a b : α} :
    (pure a : Except PyErr α) = .ok b ↔ a = b := by
  constructor
  · intro h
    exact Except.ok.inj h
  · intro h
    rw [h]
    rfl

/-- Successful Python indexing returns the list entry. -/
theorem pyIndex_ok {l : List (List Char)} {i : ℕ} {a : List Char} :
    pyIndex l i = .ok a ↔ l[i]? = some a := by
  unfold pyIndex
  cases h : l[i]? <;> simp

/-- Successful Python last-element indexing returns the last entry. -/
theorem pyLast_ok {l : List (List Char)} {a : List Char} :
    pyLast l = .ok a ↔ l.getLast? = some a := by
  unfold pyLast
  cases h : l.getLast? <;> simp

/-- Successful int() returns the pyInt value. -/
theorem toInt_ok {csl : List Char} {n : ℤ} :
    toInt csl = .ok n ↔ pyInt csl = some n := by
  unfold toInt
  cases h : pyInt csl <;> simp

/-- Successful arrival-time parsing returns the D value. -/
theorem toArrival_ok {D : List Char → Option ℚ} {csl : List Char} {q : ℚ} :
    toArrival D csl = .ok q ↔ D csl = some q := by
  unfold toArrival
  cases h : D csl <;> simp

/-- Successful strptime returns the strpYmdHMSf value. -/
theorem toInsert_ok {csl : List Char} {q : ℚ} :
    toInsert csl = .ok q ↔ strpYmdHMSf csl = some q := by
  unfold toInsert
  cases h : strpYmdHMSf csl <;> simp

/-- A token accepted by int() consists of a possible sign and digits,
so it never contains a dot. -/
theorem pyInt_no_dot {csl : List Char} (h : (pyInt csl).isSome) : ('.') ∉ csl := by
  intro hmem
  cases csl with
  | nil => simp [pyInt] at h
  | cons c rest =>
    simp only [pyInt] at h
    by_cases hc : c = '-'
    · rw [if_pos hc] at h
      split at h
      · next hcond =>
        rcases List.mem_cons.mp hmem with h1 | h1
        · rw [hc] at h1
          exact absurd h1 (by decide)
        · have := List.all_eq_true.mp hcond.2 _ h1
          exact absurd this (by decide)
      · simp at h
    · rw [if_neg hc] at h
      by_cases hc' : c = '+'
      · rw [if_pos hc'] at h
        split at h
        · next hcond =>
          rcases List.mem_cons.mp hmem with h1 | h1
          · rw [hc'] at h1
            exact absurd h1 (by decide)
          · have := List.all_eq_true.mp hcond.2 _ h1
            exact absurd this (by decide)
        · simp at h
      · rw [if_neg hc'] at h
        split at h
        · next hcond =>
          have := List.all_eq_true.mp hcond _ hmem
          exact absurd this (by decide)
        · simp at h

/-- A token accepted by strptime with the %Y%m%d%H%M%S.%f format
contains a dot. -/
theorem strp_has_dot {csl : List Char} (h : (strpYmdHMSf csl).isSome) : ('.') ∈ csl := by
  unfold strpYmdHMSf at h
  split at h
  · next frac heq =>
    exact List.drop_subset 14 csl (heq ▸ List.mem_cons_self _ _)
  · simp at h

/-- No token is accepted by both int() and strptime with the
%Y%m%d%H%M%S.%f format: the former forbids a dot, the latter
requires one. -/
theorem pyInt_strp_exclusive {csl : List Char}
    (h1 : (pyInt csl).isSome) (h2 : (strpYmdHMSf csl).isSome) : False :=
  pyInt_no_dot h1 (strp_has_dot h2)

/-- The dict component built by the extract loop: an identifier
already present keeps its value, and an absent identifier gets the
value of the first record with that identifier, if any (the
has_key-guarded insert makes the first occurrence win). -/
theorem extractLoop_dict (step : List Char → Except PyErr (Option (ℤ × ℤ × ℚ)))
    (ls : List (List Char)) :
    ∀ st st' : ExtractState, extractLoop step ls st = .ok st' →
    ∀ i, st'.2 i =
      if (st.2 i).isSome then st.2 i
      else ((stepRecords step ls).find? (fun rcd => rcd.1 == i)).map
        (fun rcd => (rcd.2.1, rcd.2.2)) := by
  induction ls with
  | nil =>
    intro st st' h i
    simp only [extractLoop] at h
    obtain rfl : st = st' := Except.ok.inj h
    simp only [stepRecords, List.filterMap_nil, List.find?_nil, Option.map_none']
    by_cases hio : (st.2 i).isSome
    · rw [if_pos hio]
    · rw [if_neg hio]
      exact Option.not_isSome_iff_eq_none.mp hio
  | cons l ls ih =>
    intro st st' h i
    simp only [extractLoop] at h
    rw [except_bind_ok] at h
    obtain ⟨r, hstep, hrest⟩ := h
    cases r with
    | none =>
      have hrc : stepRecords step (l :: ls) = stepRecords step ls := by
        simp [stepRecords, List.filterMap_cons, hstep]
      rw [hrc]
      exact ih st st' hrest i
    | some rcd =>
      have hrc : stepRecords step (l :: ls) = rcd :: stepRecords step ls := by
        simp [stepRecords, List.filterMap_cons, hstep]
      rw [hrc]
      have ihh := ih (insertRecord st rcd) st' hrest i
      rw [ihh]
      unfold insertRecord
      by_cases hk : (st.2 rcd.1).isSome
      · rw [if_pos hk]
        by_cases hio : (st.2 i).isSome
        · simp only [if_pos hio]
        · rw [if_neg hio, if_neg hio]
          have hne : (rcd.1 == i) = false := by
            rw [beq_eq_false_iff_ne]
            intro hbe
            rw [hbe] at hk
            exact absurd hk (by simpa using hio)
          simp only [List.find?_cons, hne]
      · rw [if_neg hk]
        by_cases hie : i = rcd.1
        · subst hie
          simp only [if_pos rfl, Option.isSome_some, if_true]
          rw [if_neg (by simpa using hk)]
          simp only [List.find?_cons, beq_self_eq_true, Option.map_some']
        · simp only [if_neg hie]
          by_cases hio : (st.2 i).isSome
          · simp only [if_pos hio]
          · rw [if_neg hio, if_neg hio]
            have hne : (rcd.1 == i) = false := by
              rw [beq_eq_false_iff_ne]
              intro hbe
              exact hie hbe.symm
            simp only [List.find?_cons, hne]

/-- The set component built by the extract loop: the starting set
united with the identifiers of all records the steps produce. -/
theorem extractLoop_set (step : List Char → Except PyErr (Option (ℤ × ℤ × ℚ)))
    (ls : List (List Char)) :
    ∀ st st' : ExtractState, extractLoop step ls st = .ok st' →
    st'.1 = st.1 ∪ ((stepRecords step ls).map (fun rcd => rcd.1)).toFinset := by
  induction ls with
  | nil =>
    intro st st' h
    simp only [extractLoop] at h
    obtain rfl : st = st' := Except.ok.inj h
    simp [stepRecords]
  | cons l ls ih =>
    intro st st' h
    simp only [extractLoop] at h
    rw [except_bind_ok] at h
    obtain ⟨r, hstep, hrest⟩ := h
    cases r with
    | none =>
      have hrc : stepRecords step (l :: ls) = stepRecords step ls := by
        simp [stepRecords, List.filterMap_cons, hstep]
      rw [hrc]
      exact ih st st' hrest
    | some rcd =>
      have hrc : stepRecords step (l :: ls) = rcd :: stepRecords step ls := by
        simp [stepRecords, List.filterMap_cons, hstep]
      rw [hrc]
      have ihh := ih (insertRecord st rcd) st' hrest
      rw [ihh]
      show st.1 ∪ {rcd.1} ∪ _ = _
      rw [List.map_cons, List.toFinset_cons, Finset.insert_eq, Finset.union_assoc]

/-- Whether the extract loop succeeds does not depend on the starting
state (the per-line steps do not read the state). -/
theorem extractLoop_ok_any_state (step : List Char → Except PyErr (Option (ℤ × ℤ × ℚ)))
    (ls : List (List Char)) :
    ∀ st st' : ExtractState, extractLoop step ls st = .ok st' →
    ∀ st₀, ∃ st₁, extractLoop step ls st₀ = .ok st₁ := by
  induction ls with
  | nil =>
    intro st st' _ st₀
    exact ⟨st₀, rfl⟩
  | cons l ls ih =>
    intro st st' h st₀
    simp only [extractLoop] at h
    rw [except_bind_ok] at h
    obtain ⟨r, hstep, hrest⟩ := h
    cases r with
    | none =>
      obtain ⟨st₁, h1⟩ := ih st st' hrest st₀
      refine ⟨st₁, ?_⟩
      simp only [extractLoop]
      rw [except_bind_ok]
      exact ⟨none, hstep, h1⟩
    | some rcd =>
      obtain ⟨st₁, h1⟩ := ih _ st' hrest (insertRecord st₀ rcd)
      refine ⟨st₁, ?_⟩
      simp only [extractLoop]
      rw [except_bind_ok]
      exact ⟨some rcd, hstep, h1⟩

/-- The extract loop over concatenated line lists is the composition
of the loops. -/
theorem extractLoop_append (step : List Char → Except PyErr (Option (ℤ × ℤ × ℚ)))
    (xs ys : List (List Char)) :
    ∀ st, extractLoop step (xs ++ ys) st =
      (extractLoop step xs st) >>= extractLoop step ys := by
  induction xs with
  | nil =>
    intro st
    simp [extractLoop, Bind.bind, Except.bind]
  | cons l xs ih =>
    intro st
    cases hstep : step l with
    | error e =>
      simp [extractLoop, hstep, Bind.bind, Except.bind]
    | ok r =>
      simp only [List.cons_append, extractLoop, hstep, Bind.bind, Except.bind]
      exact ih _

namespace cbr

/-- Inversion of a successful parseMLDM on a marker-matching line:
every column access and conversion succeeded, and the record fields
come from the last column, column 6, column 0 and column 7. -/
theorem parseMLDM_ok_inv {D : List Char → Option ℚ} {line : List Char} {r : ℤ × ℤ × ℚ}
    (hm : matchMldm line = true) (h : parseMLDM D line = .ok r) :
    ∃ lastTok c6 c0 a c7 t,
      (cols line).getLast? = some lastTok ∧ pyInt lastTok = some r.1 ∧
      (cols line)[6]? = some c6 ∧ pyInt c6 = some r.2.1 ∧
      (cols line)[0]? = some c0 ∧ D c0 = some a ∧
      (cols line)[7]? = some c7 ∧ strpYmdHMSf c7 = some t ∧
      r.2.2 = a - t := by
  unfold parseMLDM at h
  rw [if_pos hm] at h
  rw [except_bind_ok] at h
  obtain ⟨lastTok, h1, h⟩ := h
  rw [except_bind_ok] at h
  obtain ⟨prodindex, h2, h⟩ := h
  rw [except_bind_ok] at h
  obtain ⟨c6, h3, h⟩ := h
  rw [except_bind_ok] at h
  obtain ⟨size, h4, h⟩ := h
  rw [except_bind_ok] at h
  obtain ⟨c0, h5, h⟩ := h
  rw [except_bind_ok] at h
  obtain ⟨a, h6, h⟩ := h
  rw [except_bind_ok] at h
  obtain ⟨c7, h7, h⟩ := h
  rw [except_bind_ok] at h
  obtain ⟨t, h8, h⟩ := h
  rw [except_pure_ok] at h
  subst h
  exact ⟨lastTok, c6, c0, a, c7, t,
    pyLast_ok.mp h1, toInt_ok.mp h2,
    pyIndex_ok.mp h3, toInt_ok.mp h4,
    pyIndex_ok.mp h5, toArrival_ok.mp h6,
    pyIndex_ok.mp h7, toInsert_ok.mp h8, rfl⟩

/-- Inversion of a successful parseBackstop on a marker-matching line:
every column access and conversion succeeded, and the record fields
come from the last column, column 5, column 0 and column 6. -/
theorem parseBackstop_ok_inv {D : List Char → Option ℚ} {line : List Char} {r : ℤ × ℤ × ℚ}
    (hm : matchDown line = true) (h : parseBackstop D line = .ok r) :
    ∃ lastTok c5 c0 a c6 t,
      (cols line).getLast? = some lastTok ∧ pyInt lastTok = some r.1 ∧
      (cols line)[5]? = some c5 ∧ pyInt c5 = some r.2.1 ∧
      (cols line)[0]? = some c0 ∧ D c0 = some a ∧
      (cols line)[6]? = some c6 ∧ strpYmdHMSf c6 = some t ∧
      r.2.2 = a - t := by
  unfold parseBackstop at h
  rw [if_pos hm] at h
  rw [except_bind_ok] at h
  obtain ⟨lastTok, h1, h⟩ := h
  rw [except_bind_ok] at h
  obtain ⟨prodindex, h2, h⟩ := h
  rw [except_bind_ok] at h
  obtain ⟨c5, h3, h⟩ := h
  rw [except_bind_ok] at h
  obtain ⟨size, h4, h⟩ := h
  rw [except_bind_ok] at h
  obtain ⟨c0, h5, h⟩ := h
  rw [except_bind_ok] at h
  obtain ⟨a, h6, h⟩ := h
  rw [except_bind_ok] at h
  obtain ⟨c6, h7, h⟩ := h
  rw [except_bind_ok] at h
  obtain ⟨t, h8, h⟩ := h
  rw [except_pure_ok] at h
  subst h
  exact ⟨lastTok, c5, c0, a, c6, t,
    pyLast_ok.mp h1, toInt_ok.mp h2,
    pyIndex_ok.mp h3, toInt_ok.mp h4,
    pyIndex_ok.mp h5, toArrival_ok.mp h6,
    pyIndex_ok.mp h7, toInsert_ok.mp h8, rfl⟩

/-- A line whose mldm markers do not match makes parseMLDM return the
no-match sentinel. -/
theorem parseMLDM_no_match {D : List Char → Option ℚ} {line : List Char}
    (hm : ¬ matchMldm line = true) : parseMLDM D line = .ok (-1, -1, -1) := by
  unfold parseMLDM
  rw [if_neg hm]
  rfl

/-- A line whose down7 markers do not match makes parseBackstop return
the no-match sentinel. -/
theorem parseBackstop_no_match {D : List Char → Option ℚ} {line : List Char}
    (hm : ¬ matchDown line = true) : parseBackstop D line = .ok (-1, -1, -1) := by
  unfold parseBackstop
  rw [if_neg hm]
  rfl

end cbr

namespace ldm6

/-- Shape of the row indices that the aggregate loop emits: the
concatenation of the produced groups, extended by a possibly dropped
tail, is the pending group followed by the remaining row indices; the
tail is empty, or is everything with the running sum plus the
remaining sizes summing to zero, or is a suffix of the remaining rows
whose sizes sum to zero. -/
theorem aggLoop_join (thr : ℤ) :
    ∀ (rest : List ℤ) (i : ℕ) (group : List ℕ) (s : ℤ),
    ∃ tail, (aggLoop rest i thr group s).1.flatten ++ tail =
        group ++ List.range' i rest.length ∧
      (tail = [] ∨
       (tail = group ++ List.range' i rest.length ∧ s + rest.sum = 0) ∨
       (∃ m, m ≤ rest.length ∧ tail = List.range' (i + m) (rest.length - m) ∧
         (rest.drop m).sum = 0)) := by
  intro rest
  induction rest with
  | nil =>
    intro i group s
    by_cases hg : group ≠ [] ∧ s ≠ 0
    · refine ⟨[], ?_, Or.inl rfl⟩
      simp [aggLoop, hg]
    · refine ⟨group, ?_, ?_⟩
      · simp [aggLoop, hg]
      · by_cases hgrp : group = []
        · exact Or.inl hgrp
        · refine Or.inr (Or.inl ⟨by simp, ?_⟩)
          have hs : s = 0 := by
            by_contra hs
            exact hg ⟨hgrp, hs⟩
          simp [hs]
  | cons sz rest ih =>
    intro i group s
    by_cases hth : s + sz ≥ thr
    · have hres : aggLoop (sz :: rest) i thr group s =
          ((group ++ [i]) :: (aggLoop rest (i + 1) thr [] 0).1,
           (s + sz) :: (aggLoop rest (i + 1) thr [] 0).2) := by
        simp [aggLoop, hth]
      obtain ⟨tail, htail, hcase⟩ := ih (i + 1) [] 0
      refine ⟨tail, ?_, ?_⟩
      · rw [hres]
        show ((group ++ [i]) :: (aggLoop rest (i + 1) thr [] 0).1).flatten ++ tail = _
        rw [List.flatten_cons, List.append_assoc, htail]
        simp [List.range'_succ, List.append_assoc]
      · rcases hcase with h | ⟨ht, hs⟩ | ⟨m, hm, ht, hs⟩
        · exact Or.inl h
        · refine Or.inr (Or.inr ⟨1, by simp, ?_, ?_⟩)
          · rw [ht]
            simp
          · simpa using hs
        · refine Or.inr (Or.inr ⟨m + 1, by simp only [List.length_cons]; omega, ?_, ?_⟩)
          · rw [ht]
            simp only [List.length_cons]
            congr 1 <;> omega
          · simpa using hs
    · have hres : aggLoop (sz :: rest) i thr group s =
          aggLoop rest (i + 1) thr (group ++ [i]) (s + sz) := by
        simp [aggLoop, hth]
      obtain ⟨tail, htail, hcase⟩ := ih (i + 1) (group ++ [i]) (s + sz)
      refine ⟨tail, ?_, ?_⟩
      · rw [hres, htail]
        simp [List.range'_succ, List.append_assoc]
      · rcases hcase with h | ⟨ht, hs⟩ | ⟨m, hm, ht, hs⟩
        · exact Or.inl h
        · refine Or.inr (Or.inl ⟨?_, ?_⟩)
          · rw [ht]
            simp [List.range'_succ, List.append_assoc]
          · rw [List.sum_cons]
            linarith
        · refine Or.inr (Or.inr ⟨m + 1, by simp only [List.length_cons]; omega, ?_, ?_⟩)
          · rw [ht]
            simp only [List.length_cons]
            congr 1 <;> omega
          · simpa using hs

/-- Every sum the aggregate loop emits, except possibly the last one,
is at least the threshold (a group is only closed inside the loop when
its running sum has reached the threshold). -/
theorem aggLoop_sums_ge (thr : ℤ) :
    ∀ (rest : List ℤ) (i : ℕ) (group : List ℕ) (s : ℤ) (j : ℕ),
    j + 1 < (aggLoop rest i thr group s).2.length →
    thr ≤ (aggLoop rest i thr group s).2.getD j 0 := by
  intro rest
  induction rest with
  | nil =>
    intro i group s j hj
    by_cases hg : group ≠ [] ∧ s ≠ 0 <;> simp [aggLoop, hg] at hj
  | cons sz rest ih =>
    intro i group s j hj
    by_cases hth : s + sz ≥ thr
    · have hres : aggLoop (sz :: rest) i thr group s =
          ((group ++ [i]) :: (aggLoop rest (i + 1) thr [] 0).1,
           (s + sz) :: (aggLoop rest (i + 1) thr [] 0).2) := by
        simp [aggLoop, hth]
      rw [hres] at hj ⊢
      cases j with
      | zero => exact hth
      | succ k =>
        simp only [List.length_cons] at hj
        exact ih (i + 1) [] 0 k (by omega)
    · have hres : aggLoop (sz :: rest) i thr group s =
          aggLoop rest (i + 1) thr (group ++ [i]) (s + sz) := by
        simp [aggLoop, hth]
      rw [hres] at hj ⊢
      exact ih (i + 1) (group ++ [i]) (s + sz) j hj

/-- The aggregate loop emits as many sums as groups. -/
theorem aggLoop_len (thr : ℤ) :
    ∀ (rest : List ℤ) (i : ℕ) (group : List ℕ) (s : ℤ),
    (aggLoop rest i thr group s).1.length = (aggLoop rest i thr group s).2.length := by
  intro rest
  induction rest with
  | nil =>
    intro i group s
    by_cases hg : group ≠ [] ∧ s ≠ 0 <;> simp [aggLoop, hg]
  | cons sz rest ih =>
    intro i group s
    by_cases hth : s + sz ≥ thr <;> simp [aggLoop, hth, ih]

/-- Each emitted sum is the sum of the sizes of the rows of its group,
whenever the pending state is consistent (the remaining rows are the
rows from index i on, and the running sum is the size sum of the
pending group). -/
theorem aggLoop_sums_eq (sizes : List ℤ) (thr : ℤ) :
    ∀ (rest : List ℤ) (i : ℕ) (group : List ℕ) (s : ℤ),
    rest = sizes.drop i → s = groupSizeSum sizes group →
    ∀ g σ, (g, σ) ∈ ((aggLoop rest i thr group s).1.zip (aggLoop rest i thr group s).2) →
    σ = groupSizeSum sizes g := by
  intro rest
  induction rest with
  | nil =>
    intro i group s _ hsum g σ hmem
    by_cases hg : group ≠ [] ∧ s ≠ 0
    · simp [aggLoop, hg] at hmem
      rw [hmem.2, hmem.1]
      exact hsum
    · simp [aggLoop, hg] at hmem
  | cons sz rest ih =>
    intro i group s hdrop hsum g σ hmem
    have h0 : sizes[i]? = some sz := by
      have := List.getElem?_drop sizes i 0
      rw [← hdrop] at this
      simpa using this.symm
    have hdrop' : rest = sizes.drop (i + 1) := by
      have : sizes.drop (i + 1) = List.drop 1 (List.drop i sizes) := by
        rw [List.drop_drop]
      rw [this, ← hdrop]
      rfl
    have hsum' : s + sz = groupSizeSum sizes (group ++ [i]) := by
      unfold groupSizeSum at hsum ⊢
      rw [List.map_append, List.sum_append, ← hsum]
      simp [h0]
    by_cases hth : s + sz ≥ thr
    · have hres : aggLoop (sz :: rest) i thr group s =
          ((group ++ [i]) :: (aggLoop rest (i + 1) thr [] 0).1,
           (s + sz) :: (aggLoop rest (i + 1) thr [] 0).2) := by
        simp [aggLoop, hth]
      rw [hres] at hmem
      rw [List.zip_cons_cons] at hmem
      rcases List.mem_cons.mp hmem with he | hmem'
      · obtain ⟨h1, h2⟩ := Prod.mk.injEq .. ▸ he
        rw [h2, h1]
        exact hsum'
      · exact ih (i + 1) [] 0 hdrop' (by simp [groupSizeSum]) g σ hmem'
    · have hres : aggLoop (sz :: rest) i thr group s =
          aggLoop rest (i + 1) thr (group ++ [i]) (s + sz) := by
        simp [aggLoop, hth]
      rw [hres] at hmem
      exact ih (i + 1) (group ++ [i]) (s + sz) hdrop' hsum' g σ hmem

end ldm6


/-- Additional short lines used by claim C3: a line with only three
columns (ldm6 parseMLDM indexes column 3 before any guard), and
marker-matching cbr lines with too few columns for the size/timestamp
fields. -/
def shortLine3 : List Char := "a b c".data

/-- Marker-matching mldm line with only four columns. -/
def shortLineM : List Char := "0 mldm Received 5".data

/-- Marker-matching down7 line with only four columns. -/
def shortLineD : List Char := "0 down7 Inserted 5".data

/-- Claim C1 (counterexample): the claim says Variant B takes its
insertion timestamp from whitespace-split column index 7.  On the
concrete matched line lineB, parseBackstop succeeds although column 7
(the final column, the token 7) is not parseable in the
YYYYMMDDHHMMSS.ffffff pattern at all, so the insertion timestamp
cannot have come from column 7: the code reads column 6. -/
theorem C1_counterexample :
    ¬ (∀ (D : List Char → Option ℚ) (line : List Char) (r : ℤ × ℤ × ℚ),
        matchDown line = true → cbr.parseBackstop D line = .ok r →
        ∃ c7 t, (cols line)[7]? = some c7 ∧ strpYmdHMSf c7 = some t) := by
  intro h
  obtain ⟨c7, t, hc7, ht⟩ := h wD lineB (7, 500, wRx) (by decide) rfl
  have he : (cols lineB)[7]? = some ("7".data) := by decide
  rw [he] at hc7
  obtain rfl : "7".data = c7 := Option.some.inj hc7
  have hn : strpYmdHMSf ("7".data) = none := rfl
  rw [hn] at ht
  exact Option.noConfusion ht

/-- Claim C1 (amended): for every log line matched by parser Variant B
(the downstream/backstop variant), the returned record takes its size
from whitespace-split column index 5 and its insertion timestamp from
whitespace-split column index 6 (not 7), parsed as the fixed numeric
pattern YYYYMMDDHHMMSS.ffffff; the elapsed field is the arrival time
of column 0 minus that insertion timestamp. -/
theorem C1_backstop_columns :
    ∀ (D : List Char → Option ℚ) (line : List Char) (r : ℤ × ℤ × ℚ),
    matchDown line = true → cbr.parseBackstop D line = .ok r →
    ∃ c5 c6 c0 a t,
      (cols line)[5]? = some c5 ∧ pyInt c5 = some r.2.1 ∧
      (cols line)[6]? = some c6 ∧ strpYmdHMSf c6 = some t ∧
      (cols line)[0]? = some c0 ∧ D c0 = some a ∧ r.2.2 = a - t := by
  intro D line r hm h
  obtain ⟨lastTok, c5, c0, a, c6, t, _, _, h5, h5v, h0, h0v, h6, h6v, hrx⟩ :=
    cbr.parseBackstop_ok_inv hm h
  exact ⟨c5, c6, c0, a, t, h5, h5v, h6, h6v, h0, h0v, hrx⟩

/-- Claim C1, witness: the amended theorem applied to the concrete
matched line lineB, whose parse succeeds with size 500 read from
column 5. -/
theorem C1_witness :
    matchDown lineB = true ∧ cbr.parseBackstop wD lineB = .ok (7, 500, wRx) ∧
    (∃ c5 c6 c0 a t,
      (cols lineB)[5]? = some c5 ∧ pyInt c5 = some 500 ∧
      (cols lineB)[6]? = some c6 ∧ strpYmdHMSf c6 = some t ∧
      (cols lineB)[0]? = some c0 ∧ wD c0 = some a ∧ wRx = a - t) :=
  ⟨by decide, rfl, C1_backstop_columns wD lineB (7, 500, wRx) (by decide) rfl⟩

/-- Claim C3 (refutation of the no-crash property, supporting the
code_bug verdict): on lines with fewer whitespace-split columns than
the variant expects, all three parser variants raise IndexError
instead of returning a parse failure or the (-1, -1, -1) sentinel,
whatever the external date parser does: the ldm6 variant indexes
column 3 of a three-column line before any guard, and the two cbr
variants index columns 6 and 5 of marker-matching four-column
lines. -/
theorem C3_short_line_crash :
    ∀ (D : List Char → Option ℚ),
      ldm6.parseMLDM D shortLine3 = .error .indexError ∧
      cbr.parseMLDM D shortLineM = .error .indexError ∧
      cbr.parseBackstop D shortLineD = .error .indexError :=
  fun _ => ⟨rfl, rfl, rfl⟩

/-- Claim C3, witness: the crash evaluations at the concrete date
parser wD. -/
theorem C3_witness :
    ldm6.parseMLDM wD shortLine3 = .error .indexError ∧
    cbr.parseMLDM wD shortLineM = .error .indexError ∧
    cbr.parseBackstop wD shortLineD = .error .indexError :=
  C3_short_line_crash wD

/-- Claim C7: for every identifier present in the CompletedTable whose
recorded elapsed time is exactly 0, calcCBR returns the sentinel pair
(-1, -1). -/
theorem C7_calcCBR_zero_elapsed (index : ℤ) (d : ℤ → Option (ℤ × ℚ)) (sz : ℤ)
    (h : d index = some (sz, 0)) : cbr.calcCBR index d = .ok (-1, -1) := by
  unfold cbr.calcCBR
  rw [h]
  simp

/-- Claim C7, witness: the dict mapping identifier 0 to size 4,000,000
and elapsed time 0. -/
theorem C7_witness :
    dictZeroTime 0 = some (4000000, 0) ∧ cbr.calcCBR 0 dictZeroTime = .ok (-1, -1) :=
  ⟨rfl, C7_calcCBR_zero_elapsed 0 dictZeroTime 4000000 rfl⟩

/-- Claim C8: for the product of size 4,000,000 bytes with elapsed
time 1.0 s, under the hard-coded channel rate 40,000,000 bps and rtt
0.001 s, the ideal time is 0.1005 s, calcCBR returns
cbr = 10.05 and half-full cbr = (0.1005/60.1005)*100, the half-full
cbr is below the cbr, and the emitted is-half-full flag is 0. -/
theorem C8_end_to_end :
    ((4000000 : ℚ) / 40000000 + 0.5 * cbr.rtt = 0.1005) ∧
    cbr.calcCBR 0 dictC8 = .ok (10.05, (0.1005 / 60.1005) * 100) ∧
    ((0.1005 : ℚ) / 60.1005) * 100 < 10.05 ∧
    cbr.isHalfFullFlag 10.05 ((0.1005 / 60.1005) * 100) = 0 := by
  have hlt : (0.1005 : ℚ) / 60.1005 * 100 < 10.05 := by
    rw [div_mul_eq_mul_div, div_lt_iff₀ (by norm_num)]
    norm_num
  refine ⟨by norm_num [cbr.rtt], ?_, hlt, ?_⟩
  · unfold cbr.calcCBR
    rw [show dictC8 0 = some (4000000, 1) from rfl]
    norm_num [cbr.rtt]
  · unfold cbr.isHalfFullFlag
    rw [if_neg (not_lt.mpr (le_of_lt hlt))]

/-- Claim C10: in the CBR extractor, Variant A takes strict precedence
over Variant B: whenever parseMLDM returns a record with identifier
at least 0 and parseBackstop returns anything at all (in particular a
record with identifier at least 0), the per-line step records exactly
the MLDM record; the backstop result is discarded. -/
theorem C10_mldm_precedence :
    ∀ (D : List Char → Option ℚ) (line : List Char) (m b : ℤ × ℤ × ℚ),
      cbr.parseMLDM D line = .ok m → m.1 ≥ 0 →
      cbr.parseBackstop D line = .ok b →
      cbr.lineStep D line = .ok (some m) := by
  intro D line m b hA hge hB
  unfold cbr.lineStep
  simp only [hA, hB, Bind.bind, Except.bind]
  rw [if_pos hge]
  rfl

/-- Claim C10, witness: the per-line step on the concrete matched
mldm line records the MLDM record (3, 100, wRx) while parseBackstop
returned its sentinel. -/
theorem C10_witness :
    cbr.parseMLDM wD lineA = .ok (3, 100, wRx) ∧
    cbr.parseBackstop wD lineA = .ok (-1, -1, -1) ∧
    cbr.lineStep wD lineA = .ok (some (3, 100, wRx)) :=
  ⟨rfl, rfl, C10_mldm_precedence wD lineA (3, 100, wRx) (-1, -1, -1) rfl (by decide) rfl⟩

/-- Claim C4 (counterexample): the claim says that whenever the
matched elapsed times of a group sum to zero, calcThroughput returns
throughput -1 with completeSize 0.  At the concrete group with one
matched product of size 100 and elapsed time 0, the elapsed sum is 0
but calcThroughput returns (-1, 100), not (-1, 0): completeSize is the
sum of the matched sizes, which is 0 only in the empty-intersection
case. -/
theorem C4_counterexample :
    (∑ i ∈ ({0} : Finset ℤ) ∩ {0}, ((dictThru i).getD (0, 0)).2) = 0 ∧
    ldm6.calcThroughput {0} {0} dictThru = .ok (-1, 100) ∧
    (Except.ok ((-1 : ℚ), (100 : ℤ)) : Except PyErr (ℚ × ℤ)) ≠ .ok (-1, 0) := by
  refine ⟨by simp [dictThru], ?_, by simp⟩
  unfold ldm6.calcThroughput
  rw [dif_pos (by simp [dictThru])]
  simp [dictThru]

/-- Claim C4 (amended): for every aggregate group whose matched
products have elapsed times summing exactly to 0 (all dict lookups
succeeding), calcThroughput returns throughput -1 together with
completeSize equal to the sum of the matched sizes; in the
empty-intersection case that completeSize is 0. -/
theorem C4_throughput_zero_time (tx cs : Finset ℤ) (d : ℤ → Option (ℤ × ℚ))
    (hk : ∀ i ∈ tx ∩ cs, (d i).isSome)
    (ht : (∑ i ∈ tx ∩ cs, ((d i).getD (0, 0)).2) = 0) :
    ldm6.calcThroughput tx cs d =
      .ok (-1, ∑ i ∈ tx ∩ cs, ((d i).getD (0, 0)).1) ∧
    (tx ∩ cs = ∅ → ldm6.calcThroughput tx cs d = .ok (-1, 0)) := by
  have hmain : ldm6.calcThroughput tx cs d =
      .ok (-1, ∑ i ∈ tx ∩ cs, ((d i).getD (0, 0)).1) := by
    unfold ldm6.calcThroughput
    rw [dif_pos hk]
    have ht' : (∑ i ∈ tx ∩ cs, ((d i).getD 0).2) = 0 := by simpa using ht
    simp [ht']
  refine ⟨hmain, fun he => ?_⟩
  rw [hmain]
  simp [he]

/-- Claim C4, witness: the amended theorem applied to the concrete
group with one matched product of size 100 and elapsed time 0. -/
theorem C4_witness :
    (∑ i ∈ ({0} : Finset ℤ) ∩ {0}, ((dictThru i).getD (0, 0)).2) = 0 ∧
    (ldm6.calcThroughput {0} {0} dictThru =
       .ok (-1, ∑ i ∈ ({0} : Finset ℤ) ∩ {0}, ((dictThru i).getD (0, 0)).1) ∧
     (({0} : Finset ℤ) ∩ {0} = ∅ → ldm6.calcThroughput {0} {0} dictThru = .ok (-1, 0))) := by
  have h2 : (∑ i ∈ ({0} : Finset ℤ) ∩ {0}, ((dictThru i).getD (0, 0)).2) = 0 := by
    simp [dictThru]
  exact ⟨h2, C4_throughput_zero_time {0} {0} dictThru (by simp [dictThru]) h2⟩

/-- Claim C5 (counterexample): the claim says the two variants are
mutually exclusive because their marker substrings are disjoint, that
a line matching Variant A markers is a Variant B no-match, and that a
line matching Variant A markers makes Variant A return an identifier
at least 0.  The concrete line lineAB matches both marker pairs;
on it Variant B returns the full record (3, 100, wRx), not the
no-match sentinel, and Variant A raises ValueError instead of
returning an identifier at least 0. -/
theorem C5_counterexample :
    ¬ (∀ (D : List Char → Option ℚ) (line : List Char),
        matchMldm line = true →
        (cbr.parseBackstop D line = .ok (-1, -1, -1) ∧
         ∃ r, cbr.parseMLDM D line = .ok r ∧ r.1 ≥ 0)) := by
  intro h
  obtain ⟨hB, r, hA, _⟩ := h wD lineAB (by decide)
  rw [show cbr.parseMLDM wD lineAB = .error .valueError from rfl] at hA
  exact Except.noConfusion hA

/-- Claim C5 (amended): at most one of the two cbr parser variants can
return a positive match on any line: if Variant A returns a record
with identifier at least 0, anything Variant B returns on the same
line is the no-match sentinel, and symmetrically (on a line matching
both marker pairs, column 6 would have to be both an int() integer and
a dotted strptime timestamp, which is impossible, so one of the two
parses raises instead of returning).  Moreover a line matching only
Variant A markers is a Variant B no-match and vice versa. -/
theorem C5_mutual_exclusion :
    ∀ (D : List Char → Option ℚ) (line : List Char),
      (∀ r r', cbr.parseMLDM D line = .ok r → r.1 ≥ 0 →
        cbr.parseBackstop D line = .ok r' → r' = (-1, -1, -1)) ∧
      (∀ r r', cbr.parseBackstop D line = .ok r' → r'.1 ≥ 0 →
        cbr.parseMLDM D line = .ok r → r = (-1, -1, -1)) ∧
      (matchMldm line = true → matchDown line = false →
        cbr.parseBackstop D line = .ok (-1, -1, -1)) ∧
      (matchDown line = true → matchMldm line = false →
        cbr.parseMLDM D line = .ok (-1, -1, -1)) := by
  intro D line
  refine ⟨?_, ?_, ?_, ?_⟩
  · intro r r' hA hge hB
    by_cases hmB : matchDown line = true
    · by_cases hmA : matchMldm line = true
      · obtain ⟨_, c6A, _, _, _, _, _, _, h6A, h6Av, _, _, _, _, _⟩ :=
          cbr.parseMLDM_ok_inv hmA hA
        obtain ⟨_, _, _, _, c6B, _, _, _, _, _, _, _, h6B, h6Bv, _⟩ :=
          cbr.parseBackstop_ok_inv hmB hB
        rw [h6A] at h6B
        obtain rfl : c6A = c6B := Option.some.inj h6B
        exact absurd (strp_has_dot (by rw [h6Bv]; rfl))
          (pyInt_no_dot (by rw [h6Av]; rfl))
      · have hs := cbr.parseMLDM_no_match (D := D) hmA
        rw [hA] at hs
        obtain rfl : r = (-1, -1, -1) := Except.ok.inj hs
        exact absurd hge (by decide)
    · have hs := cbr.parseBackstop_no_match (D := D) hmB
      rw [hB] at hs
      exact Except.ok.inj hs
  · intro r r' hB hge hA
    by_cases hmA : matchMldm line = true
    · by_cases hmB : matchDown line = true
      · obtain ⟨_, c6A, _, _, _, _, _, _, h6A, h6Av, _, _, _, _, _⟩ :=
          cbr.parseMLDM_ok_inv hmA hA
        obtain ⟨_, _, _, _, c6B, _, _, _, _, _, _, _, h6B, h6Bv, _⟩ :=
          cbr.parseBackstop_ok_inv hmB hB
        rw [h6A] at h6B
        obtain rfl : c6A = c6B := Option.some.inj h6B
        exact absurd (strp_has_dot (by rw [h6Bv]; rfl))
          (pyInt_no_dot (by rw [h6Av]; rfl))
      · have hs := cbr.parseBackstop_no_match (D := D) hmB
        rw [hB] at hs
        obtain rfl : r' = (-1, -1, -1) := Except.ok.inj hs
        exact absurd hge (by decide)
    · have hs := cbr.parseMLDM_no_match (D := D) hmA
      rw [hA] at hs
      exact Except.ok.inj hs
  · intro _ h2
    exact cbr.parseBackstop_no_match (by rw [h2]; simp)
  · intro _ h2
    exact cbr.parseMLDM_no_match (by rw [h2]; simp)

/-- Claim C5, witness: the amended theorem applied to the concrete
lines lineA (Variant A positive match, Variant B sentinel) and lineB
(only Variant B markers, Variant A sentinel). -/
theorem C5_witness :
    (cbr.parseMLDM wD lineA = .ok (3, 100, wRx) ∧
     cbr.parseBackstop wD lineA = .ok (-1, -1, -1) ∧
     ((-1 : ℤ), (-1 : ℤ), (-1 : ℚ)) = ((-1 : ℤ), (-1 : ℤ), (-1 : ℚ))) ∧
    (matchDown lineB = true ∧ matchMldm lineB = false ∧
     cbr.parseMLDM wD lineB = .ok (-1, -1, -1)) :=
  ⟨⟨rfl, rfl,
    (C5_mutual_exclusion wD lineA).1 (3, 100, wRx) (-1, -1, -1) rfl (by decide) rfl⟩,
   ⟨by decide, by decide,
    (C5_mutual_exclusion wD lineB).2.2.2 (by decide) (by decide)⟩⟩

/-- Claim C2 (counterexample): the claim says no row is dropped unless
the final partial group is empty.  With the single row of size 0 and
threshold 1, the final running group is the nonempty [0] yet the code
drops it (the Python truthiness test requires a nonzero running sum as
well), so the concatenated groups are empty instead of [0]. -/
theorem C2_counterexample :
    ldm6.aggregate [0] 1 = ([], []) ∧
    (ldm6.aggregate [0] 1).1.flatten ≠ List.range 1 := by
  constructor
  · decide
  · decide

/-- Claim C2 (amended): for every finite sequence of per-row sizes and
every positive threshold, the groups that aggregate emits concatenate,
in order, to the contiguous row-index range 0..k-1 for some k (no
gaps, no duplicates, no reordering); either k covers all rows, or the
dropped suffix of rows has sizes summing to 0 (the final running group
is kept only when it is nonempty with nonzero accumulated size); and
every group except possibly the last has accumulated size at least the
threshold, the emitted sums being exactly the per-group size sums. -/
theorem C2_aggregate_partition (sizes : List ℤ) (thr : ℤ) (_hthr : 0 < thr) :
    (∃ k, k ≤ sizes.length ∧
      (ldm6.aggregate sizes thr).1.flatten = List.range k ∧
      (k = sizes.length ∨ (sizes.drop k).sum = 0)) ∧
    (∀ j, j + 1 < (ldm6.aggregate sizes thr).1.length →
      thr ≤ ldm6.groupSizeSum sizes ((ldm6.aggregate sizes thr).1.getD j [])) ∧
    (∀ j, j < (ldm6.aggregate sizes thr).1.length →
      (ldm6.aggregate sizes thr).2.getD j 0 =
        ldm6.groupSizeSum sizes ((ldm6.aggregate sizes thr).1.getD j [])) := by
  have hlen : (ldm6.aggregate sizes thr).1.length = (ldm6.aggregate sizes thr).2.length :=
    ldm6.aggLoop_len thr sizes 0 [] 0
  have hsums : ∀ j, j < (ldm6.aggregate sizes thr).1.length →
      (ldm6.aggregate sizes thr).2.getD j 0 =
        ldm6.groupSizeSum sizes ((ldm6.aggregate sizes thr).1.getD j []) := by
    intro j hj
    have hj2 : j < (ldm6.aggregate sizes thr).2.length := by omega
    have hg1 : (ldm6.aggregate sizes thr).1.getD j [] =
        (ldm6.aggregate sizes thr).1[j] := List.getD_eq_getElem _ _ hj
    have hg2 : (ldm6.aggregate sizes thr).2.getD j 0 =
        (ldm6.aggregate sizes thr).2[j] := List.getD_eq_getElem _ _ hj2
    rw [hg1, hg2]
    have hmem : ((ldm6.aggregate sizes thr).1[j], (ldm6.aggregate sizes thr).2[j]) ∈
        ((ldm6.aggregate sizes thr).1.zip (ldm6.aggregate sizes thr).2) := by
      have hz := @List.getElem_zip (List ℕ) ℤ (ldm6.aggregate sizes thr).1
        (ldm6.aggregate sizes thr).2 j (by rw [List.length_zip]; omega)
      rw [← hz]
      exact List.getElem_mem _
    exact ldm6.aggLoop_sums_eq sizes thr sizes 0 [] 0 (List.drop_zero sizes).symm
      (by simp [ldm6.groupSizeSum]) _ _ hmem
  refine ⟨?_, ?_, hsums⟩
  · obtain ⟨tail, htail0, hcase⟩ := ldm6.aggLoop_join thr sizes 0 [] 0
    have htail : (ldm6.aggregate sizes thr).1.flatten ++ tail = List.range' 0 sizes.length := by
      simpa using htail0
    rcases hcase with h | ⟨ht, hs⟩ | ⟨m, hm, ht, hs⟩
    · refine ⟨sizes.length, le_refl _, ?_, Or.inl rfl⟩
      rw [h, List.append_nil] at htail
      rw [List.range_eq_range']
      exact htail
    · refine ⟨0, Nat.zero_le _, ?_, Or.inr (by simpa using hs)⟩
      rw [List.nil_append] at ht
      rw [ht] at htail
      have hnil : (ldm6.aggregate sizes thr).1.flatten = [] := by
        have hl := congrArg List.length htail
        rw [List.length_append, List.length_range'] at hl
        exact List.eq_nil_of_length_eq_zero (by omega)
      rw [hnil, List.range_zero]
    · refine ⟨m, hm, ?_, Or.inr hs⟩
      have hsplit : List.range' 0 m ++ List.range' (0 + m) (sizes.length - m) =
          List.range' 0 sizes.length := by
        rw [List.range'_append_1]
        congr 1
        omega
      rw [← hsplit, ← ht] at htail
      have hc := List.append_cancel_right htail
      rw [hc, List.range_eq_range']
  · intro j hj
    have hj' : j + 1 < (ldm6.aggregate sizes thr).2.length := by omega
    have hge : thr ≤ (ldm6.aggregate sizes thr).2.getD j 0 :=
      ldm6.aggLoop_sums_ge thr sizes 0 [] 0 j hj'
    have heq := hsums j (by omega)
    rw [← heq]
    exact hge

/-- Claim C2, witness: the amended theorem applied to the metadata
example of the specification, sizes [100, 150, 100] with threshold
200 (groups [0, 1] with sum 250 and the partial [2] with sum 100). -/
theorem C2_witness :
    (0 : ℤ) < 200 ∧
    ((∃ k, k ≤ ([100, 150, 100] : List ℤ).length ∧
      (ldm6.aggregate [100, 150, 100] 200).1.flatten = List.range k ∧
      (k = ([100, 150, 100] : List ℤ).length ∨
        (([100, 150, 100] : List ℤ).drop k).sum = 0)) ∧
    (∀ j, j + 1 < (ldm6.aggregate [100, 150, 100] 200).1.length →
      200 ≤ ldm6.groupSizeSum [100, 150, 100]
        ((ldm6.aggregate [100, 150, 100] 200).1.getD j [])) ∧
    (∀ j, j < (ldm6.aggregate [100, 150, 100] 200).1.length →
      (ldm6.aggregate [100, 150, 100] 200).2.getD j 0 =
        ldm6.groupSizeSum [100, 150, 100]
          ((ldm6.aggregate [100, 150, 100] 200).1.getD j []))) :=
  ⟨by decide, C2_aggregate_partition [100, 150, 100] 200 (by decide)⟩

/-- Running the extract loop twice over the same lines from the empty
state gives the same state as running it once: the set gains no new
identifiers and the has_key guard keeps every dict entry. -/
theorem extractLoop_idem (step : List Char → Except PyErr (Option (ℤ × ℤ × ℚ)))
    (lines : List (List Char)) :
    extractLoop step (lines ++ lines) (∅, fun _ => none) =
    extractLoop step lines (∅, fun _ => none) := by
  rw [extractLoop_append]
  cases h : extractLoop step lines (∅, fun _ => none) with
  | error e => rfl
  | ok st' =>
    show extractLoop step lines st' = .ok st'
    obtain ⟨st'', h2⟩ := extractLoop_ok_any_state step lines _ st' h st'
    rw [h2]
    have hset' := extractLoop_set step lines _ st' h
    have hset'' := extractLoop_set step lines st' st'' h2
    have hs : st''.1 = st'.1 := by
      rw [hset'', hset']
      simp [Finset.union_assoc]
    have hd : st''.2 = st'.2 := by
      funext i
      have hd'' := extractLoop_dict step lines st' st'' h2 i
      have hd' := extractLoop_dict step lines _ st' h i
      simp only [Option.isSome_none, Bool.false_eq_true, if_false] at hd'
      by_cases hio : (st'.2 i).isSome
      · rw [hd'', if_pos hio]
      · rw [hd'', if_neg hio, ← hd']
    have : st'' = st' := Prod.ext hs hd
    rw [this]

/-- Claim C6: deduplication is first-match-wins.  For both extractLog
functions: on a successful run the CompletedTable maps every
identifier to the size and elapsed pair of the first record with that
identifier in file order (so later duplicate lines with different
sizes or elapsed times are ignored), and reprocessing the same lines
again is idempotent. -/
theorem C6_first_match_wins :
    ∀ (D : List Char → Option ℚ) (lines : List (List Char)),
      (∀ p, cbr.extractLog D lines = .ok p → ∀ i,
        p.2 i = ((stepRecords (cbr.lineStep D) lines).find? (fun rcd => rcd.1 == i)).map
          (fun rcd => (rcd.2.1, rcd.2.2))) ∧
      cbr.extractLog D (lines ++ lines) = cbr.extractLog D lines ∧
      (∀ p, ldm6.extractLog D lines = .ok p → ∀ i,
        p.2 i = ((stepRecords (ldm6.lineStep D) lines).find? (fun rcd => rcd.1 == i)).map
          (fun rcd => (rcd.2.1, rcd.2.2))) ∧
      ldm6.extractLog D (lines ++ lines) = ldm6.extractLog D lines := by
  intro D lines
  refine ⟨?_, ?_, ?_, ?_⟩
  · intro p hp i
    unfold cbr.extractLog at hp
    rw [except_bind_ok] at hp
    obtain ⟨st, hst, hpure⟩ := hp
    rw [except_pure_ok] at hpure
    subst hpure
    have hd := extractLoop_dict (cbr.lineStep D) lines _ st hst i
    simpa using hd
  · unfold cbr.extractLog
    rw [extractLoop_idem]
  · intro p hp i
    unfold ldm6.extractLog at hp
    rw [except_bind_ok] at hp
    obtain ⟨st, hst, hpure⟩ := hp
    rw [except_pure_ok] at hpure
    subst hpure
    have hd := extractLoop_dict (ldm6.lineStep D) lines _ st hst i
    simpa using hd
  · unfold ldm6.extractLog
    rw [extractLoop_idem]

/-- Claim C6, witness: the concrete run over the two mldm lines with
the same identifier 3 and sizes 100 then 999: the table keeps the
first pair (100, wRx), as the find-first formula states, and
reprocessing the two lines again changes nothing. -/
theorem C6_witness :
    cbr.extractLog wD [lineA, lineA2] = .ok (demoSorted, demoDict) ∧
    demoDict 3 = ((stepRecords (cbr.lineStep wD) [lineA, lineA2]).find?
      (fun rcd => rcd.1 == 3)).map (fun rcd => (rcd.2.1, rcd.2.2)) ∧
    cbr.extractLog wD ([lineA, lineA2] ++ [lineA, lineA2]) =
      cbr.extractLog wD [lineA, lineA2] := by
  have h : cbr.extractLog wD [lineA, lineA2] = .ok (demoSorted, demoDict) := rfl
  exact ⟨h, (C6_first_match_wins wD [lineA, lineA2]).1 (demoSorted, demoDict) h 3,
    (C6_first_match_wins wD [lineA, lineA2]).2.1⟩

/-- Claim C9: for every line sequence on which the cbr extractLog
succeeds, an identifier is in the returned (sorted) known-identifier
list exactly when it is a key of the returned CompletedTable, so every
identifier the CBR caller iterates over can be looked up without a
KeyError. -/
theorem C9_set_eq_keys :
    ∀ (D : List Char → Option ℚ) (lines : List (List Char))
      (p : List ℤ × (ℤ → Option (ℤ × ℚ))),
      cbr.extractLog D lines = .ok p → ∀ i, i ∈ p.1 ↔ (p.2 i).isSome := by
  intro D lines p hp i
  unfold cbr.extractLog at hp
  rw [except_bind_ok] at hp
  obtain ⟨st, hst, hpure⟩ := hp
  rw [except_pure_ok] at hpure
  subst hpure
  show i ∈ st.1.sort (· ≤ ·) ↔ (st.2 i).isSome
  rw [Finset.mem_sort]
  have hset := extractLoop_set (cbr.lineStep D) lines _ st hst
  have hdict := extractLoop_dict (cbr.lineStep D) lines _ st hst i
  simp only [Option.isSome_none, Bool.false_eq_true, if_false] at hdict
  rw [hset, hdict]
  simp only [Finset.empty_union, List.mem_toFinset, List.mem_map]
  rw [Option.isSome_map']
  rw [List.find?_isSome]
  constructor
  · rintro ⟨rcd, hmem, hid⟩
    exact ⟨rcd, hmem, beq_iff_eq.mpr hid⟩
  · rintro ⟨rcd, hmem, hid⟩
    exact ⟨rcd, hmem, beq_iff_eq.mp hid⟩

/-- Claim C9, witness: the concrete run over the single matched mldm
line, with identifier 3 both in the sorted list and a key of the
table. -/
theorem C9_witness :
    cbr.extractLog wD [lineA] = .ok (demoSorted, demoDict) ∧
    ((3 : ℤ) ∈ demoSorted ↔ (demoDict 3).isSome) := by
  have h : cbr.extractLog wD [lineA] = .ok (demoSorted, demoDict) := rfl
  exact ⟨h, C9_set_eq_keys wD [lineA] (demoSorted, demoDict) h 3⟩
